import Mathlib

/-!
Verification of the batch/resume Google Drive folder scanner in
src/google/google-drive-folder-list.gs.

The Apps Script host services are modelled shallowly:
  * DriveApp: a `Drive` value mapping folder ids to folder handles plus a
    distinguished root folder.  `DriveApp.getFolderById` throwing (deleted
    folder / revoked permission) is modelled as a `none` lookup result; the
    message of the host exception is the opaque `Drive.exnMsg` field.
  * PropertiesService.getScriptProperties(): the `Props` record with the three
    keys PROCESS_STATE, ROOT_FOLDER_ID and INCLUDE_SUBFOLDERS used by the
    script (absent key = `none`).  PROCESS_STATE is stored structurally
    instead of as a JSON string; ROOT_FOLDER_ID and INCLUDE_SUBFOLDERS keep
    their string representation.
  * The spreadsheet: the `World.sink` list of data rows (rows below the
    header, in sheet order) plus the `World.headers` header row.  `saveData_`
    locates the last data row through column B, whose cells are nonempty for
    every row the script writes, so its effect is appending; cell colouring,
    the G-column status/instruction block, column auto-resizing and alert
    dialogs are presentation-only and are not modelled (the result value of
    each operation carries what the alerts report).
  * Wall-clock time: an invocation is parameterised by `budget`, the number
    of loop iterations whose start falls inside CONFIG.MAX_RUNTIME_MS.  The
    check `Date.now() - startTime > CONFIG.MAX_RUNTIME_MS` at the top of
    iteration `k` trips exactly when `budget ≤ k`, which captures any
    monotone clock.
  * Dates: `getLastUpdated()` is the folder field `lastUpdatedMs`
    (milliseconds), compared against `Drive.nowMs`; the timezone-dependent
    `Utilities.formatDate` output is the opaque per-folder field
    `dateFormatted`.
  * The folder-id prompt of `startListing_` (CONFIG.FOLDER_ID is the empty
    string, so the script always prompts) is the `enteredId` parameter.
-/

namespace DriveList

/-- A Drive folder handle: id, name, url, last-updated timestamp (ms), the
formatted date string the script would display, whether `getFiles().hasNext()`
is true, and the immediate subfolders in iterator order. -/
inductive FolderHandle where
  | mk (id name url : String) (lastUpdatedMs : Int) (dateFormatted : String)
      (hasFile : Bool) (subs : List FolderHandle)

def FolderHandle.id : FolderHandle → String
  | .mk i _ _ _ _ _ _ => i

def FolderHandle.name : FolderHandle → String
  | .mk _ n _ _ _ _ _ => n

def FolderHandle.url : FolderHandle → String
  | .mk _ _ u _ _ _ _ => u

def FolderHandle.lastUpdatedMs : FolderHandle → Int
  | .mk _ _ _ t _ _ _ => t

def FolderHandle.dateFormatted : FolderHandle → String
  | .mk _ _ _ _ d _ _ => d

def FolderHandle.hasFile : FolderHandle → Bool
  | .mk _ _ _ _ _ h _ => h

def FolderHandle.subs : FolderHandle → List FolderHandle
  | .mk _ _ _ _ _ _ s => s

/-- The DriveApp service: id lookup table, the root folder returned by
`getRootFolder()`, the current time, and the message of the exception thrown
when an id cannot be resolved. -/
structure Drive where
  byId : List (String × FolderHandle)
  root : FolderHandle
  nowMs : Int
  exnMsg : String

/-- `DriveApp.getFolderById(id)`; `none` models the thrown exception. -/
def Drive.getFolderById (d : Drive) (id : String) : Option FolderHandle :=
  d.byId.lookup id

/-- `rootFolderId ? DriveApp.getFolderById(rootFolderId) : DriveApp.getRootFolder()`
(the empty string is falsy in JS and selects the root folder). -/
def Drive.resolveRoot (d : Drive) (rootFolderId : String) : Option FolderHandle :=
  if rootFolderId = "" then some d.root else d.getFolderById rootFolderId

/-- `getUploadStatus_`: tag and colour by age in days, `Math.floor` of the
millisecond difference over 86400000 (floor division also on negatives). -/
def getUploadStatus_ (nowMs dateMs : Int) : Option (String × String) :=
  let diffDays := (nowMs - dateMs).fdiv 86400000
  if diffDays ≤ 7 then some ("New Upload", "#c8e6c9")
  else if diffDays ≤ 30 then some ("Recent Upload", "#fff59d")
  else none

/-- The expression `folderStatus ? folderStatus.tag : the-empty-string` as
used when building rows. -/
def statusTagOf (nowMs dateMs : Int) : String :=
  match getUploadStatus_ nowMs dateMs with
  | some st => st.fst
  | none => ""

/-- One spreadsheet data row (cells left to right). -/
abbrev Row := List String

/-- The error row pushed by the catch branch of the per-entry loop: empty
status, "(Error)", "Could not access: " plus the exception message, and
empty date/action cells (one more empty cell in subfolder mode). -/
def errorRow (drive : Drive) (includeSubfolders : Bool) : Row :=
  if includeSubfolders then
    ["", "(Error)", "Could not access: " ++ drive.exnMsg, "", "", ""]
  else
    ["", "(Error)", "Could not access: " ++ drive.exnMsg, "", ""]

/-- The rows pushed for one entry of `state.folderIds` by the body of the
processing loop of `processAllFolders_` (lines 207-257 of the source). -/
def processEntry (drive : Drive) (includeSubfolders : Bool) (folderId : String) :
    List Row :=
  match drive.getFolderById folderId with
  | some folder =>
    if includeSubfolders then
      if folder.subs.isEmpty then
        [[statusTagOf drive.nowMs folder.lastUpdatedMs, folder.name,
          "(no subfolders)", "", folder.dateFormatted, ""]]
      else
        folder.subs.map (fun sub =>
          [statusTagOf drive.nowMs sub.lastUpdatedMs, folder.name, sub.name,
           sub.url, sub.dateFormatted, ""])
    else
      [[statusTagOf drive.nowMs folder.lastUpdatedMs, folder.name, folder.url,
        folder.dateFormatted, ""]]
  | none => [errorRow drive includeSubfolders]

/-- The PROCESS_STATE record persisted by `processAllFolders_`. -/
structure ScanState where
  folderIds : List String
  currentIndex : Nat
  totalFolders : Nat
  processedCount : Nat
  includeSubfolders : Bool
deriving DecidableEq, Repr

/-- The three script properties used by the script. -/
structure Props where
  processState : Option ScanState
  rootFolderId : Option String
  includeSubfolders : Option String
deriving DecidableEq, Repr

/-- The spreadsheet-and-properties state an invocation starts from. -/
structure World where
  props : Props
  sink : List Row
  headers : List String
deriving DecidableEq, Repr

/-- CONFIG.BATCH_SIZE. -/
def BATCH_SIZE : Nat := 10

/-- What the processing loop of `processAllFolders_` hands back to the code
after it: the mutated state, the not-yet-flushed `data` buffer, the local
`processedThisRun` counter, the sheet contents, and whether the loop was
left through the time-budget branch. -/
structure LoopOut where
  state : ScanState
  data : List Row
  processedThisRun : Nat
  sink : List Row
  paused : Bool
deriving DecidableEq, Repr

/-- The `while (state.currentIndex < state.folderIds.length)` loop of
`processAllFolders_` (source lines 187-272).  The time check at the top of
iteration `ptr` trips when `budget ≤ ptr`; every BATCH_SIZE processed
entries the buffer is flushed to the sheet (`saveData_` appends).  The loop
terminates because `currentIndex` increases towards `folderIds.length`; this
is rendered by the structural `fuel` argument, always invoked with
`folderIds.length - currentIndex` (an exact count of the iterations a
never-pausing run performs), under which the fuel-exhausted branch is
unreachable — `processLoop_spec` holds for every sufficient fuel. -/
def processLoop (drive : Drive) (incSub : Bool) (budget : Nat) :
    Nat → ScanState → List Row → Nat → List Row → LoopOut
  | fuel, state, data, ptr, sink =>
    if h : state.currentIndex < state.folderIds.length then
      if budget ≤ ptr then
        { state := state, data := data, processedThisRun := ptr, sink := sink,
          paused := true }
      else
        match fuel with
        | 0 =>
          { state := state, data := data, processedThisRun := ptr, sink := sink,
            paused := true }
        | fuel + 1 =>
          let folderId := state.folderIds.get ⟨state.currentIndex, h⟩
          let data2 := data ++ processEntry drive incSub folderId
          let state2 := { state with currentIndex := state.currentIndex + 1 }
          if (ptr + 1) % BATCH_SIZE = 0 then
            processLoop drive incSub budget fuel state2 [] (ptr + 1) (sink ++ data2)
          else
            processLoop drive incSub budget fuel state2 data2 (ptr + 1) sink
    else
      { state := state, data := data, processedThisRun := ptr, sink := sink,
        paused := false }

/-- The outcome reported to the user by an invocation (through `ui.alert`
and the status cell). -/
inductive RunResult where
  | paused (processed total : Nat)
  | complete (total : Nat)
  | rootError
  | nothingToResume
deriving DecidableEq, Repr

/-- `clearProgress_`: deletes PROCESS_STATE, ROOT_FOLDER_ID and
INCLUDE_SUBFOLDERS (source lines 385-390). -/
def clearProgress_ (_p : Props) : Props :=
  { processState := none, rootFolderId := none, includeSubfolders := none }

/-- Everything `processAllFolders_` does from line 174 on, given the state it
either loaded or freshly initialised: run the loop, then either flush + persist
+ report paused (lines 189-205), or flush remaining rows, `clearProgress_` and
report completion (lines 274-298).  Line 174 overrides the argument mode flag
with the one saved in the state. -/
def runLoopAndFinish (drive : Drive) (budget : Nat) (state : ScanState)
    (w : World) : World × RunResult :=
  let incSub := state.includeSubfolders
  let out := processLoop drive incSub budget
    (state.folderIds.length - state.currentIndex) state [] 0 w.sink
  if out.paused then
    let state2 := { out.state with
      processedCount := out.state.processedCount + out.processedThisRun }
    ( { w with
          props := { w.props with processState := some state2 }
          sink := out.sink ++ out.data },
      .paused state2.processedCount state2.totalFolders )
  else
    ( { w with props := clearProgress_ w.props, sink := out.sink ++ out.data },
      .complete out.state.totalFolders )

/-- `processAllFolders_(rootFolderId, includeSubfolders)` (source lines
133-298).  With no saved PROCESS_STATE it resolves the root (alerting and
returning on failure), snapshots the ids of the immediate child folders and
initialises the state; then it runs the loop. -/
def processAllFolders_ (drive : Drive) (rootFolderId : String)
    (includeSubfolders : Bool) (budget : Nat) (w : World) : World × RunResult :=
  match w.props.processState with
  | some state => runLoopAndFinish drive budget state w
  | none =>
    match drive.resolveRoot rootFolderId with
    | none => (w, .rootError)
    | some rootFolder =>
      let folderIds := rootFolder.subs.map FolderHandle.id
      let state : ScanState :=
        { folderIds := folderIds, currentIndex := 0,
          totalFolders := folderIds.length, processedCount := 0,
          includeSubfolders := includeSubfolders }
      runLoopAndFinish drive budget state w

/-- The header row written by `setupSheet_` for each mode. -/
def headersFor (includeSubfolders : Bool) : List String :=
  if includeSubfolders then
    ["Status", "Parent Folder", "Subfolder", "Subfolder URL", "Date Added", "Action"]
  else
    ["Status", "Folder Name", "Folder URL", "Date Added", "Action"]

/-- `startListing_(includeSubfolders)` (source lines 45-68): clear progress,
clear the sheet and write headers (`setupSheet_`), prompt for the folder id
(modelled by `enteredId` — CONFIG.FOLDER_ID is empty so the prompt always
runs; cancellation is not modelled), save ROOT_FOLDER_ID and
INCLUDE_SUBFOLDERS, then process. -/
def startListing_ (drive : Drive) (includeSubfolders : Bool) (enteredId : String)
    (budget : Nat) (w : World) : World × RunResult :=
  let props1 := clearProgress_ w.props
  let props2 : Props :=
    { props1 with
      rootFolderId := some enteredId
      includeSubfolders := some (if includeSubfolders then "true" else "false") }
  processAllFolders_ drive enteredId includeSubfolders budget
    { props := props2, sink := [], headers := headersFor includeSubfolders }

/-- `resumeListing()` (source lines 73-84): pull ROOT_FOLDER_ID and
INCLUDE_SUBFOLDERS from the properties; with no saved ROOT_FOLDER_ID alert
"Nothing to resume" and stop, else process. -/
def resumeListing (drive : Drive) (budget : Nat) (w : World) : World × RunResult :=
  match w.props.rootFolderId with
  | none => (w, .nothingToResume)
  | some folderId =>
    let includeSubfolders := w.props.includeSubfolders == some "true"
    processAllFolders_ drive folderId includeSubfolders budget w

/-!
JavaScript string helpers.  The builtin Lean `String` functions are
implemented over byte positions and do not reduce in the kernel, so the
operations used by the script (`trim`, `toLowerCase`, `includes` and the
`/folders\x2f([a-zA-Z0-9_-]+)/` regular expression) are given directly over
the character list of the string.  `Char.isWhitespace` covers the ASCII
whitespace the sheet cells can contain.
-/

/-- JS `String.prototype.trim`. -/
def jsTrim (s : String) : String :=
  ⟨((s.data.dropWhile Char.isWhitespace).reverse.dropWhile Char.isWhitespace).reverse⟩

/-- JS `String.prototype.toLowerCase` (ASCII letters, which is all the
markers compared by the script use). -/
def jsToLower (s : String) : String :=
  ⟨s.data.map Char.toLower⟩

/-- Whether `need` occurs as a contiguous run inside `hay`. -/
def charsContain (hay need : List Char) : Bool :=
  match hay with
  | [] => need.isEmpty
  | _ :: rest => List.isPrefixOf need hay || charsContain rest need

/-- JS `String.prototype.includes`. -/
def jsIncludes (s pat : String) : Bool :=
  charsContain s.data pat.data

/-- The character class `[a-zA-Z0-9_-]` of the folder-id pattern. -/
def folderIdChar (c : Char) : Bool :=
  c.isAlpha || c.isDigit || c = '_' || c = '-'

/-- First match of the regular expression `/folders\x2f([a-zA-Z0-9_-]+)/`:
scan left to right for an occurrence of "folders/" followed by at least one
class character, and capture the maximal run of class characters. -/
def findFolderIdChars : List Char → Option (List Char)
  | [] => none
  | c :: rest =>
    if List.isPrefixOf "folders/".data (c :: rest) then
      let idChars := ((c :: rest).drop 8).takeWhile folderIdChar
      if idChars.isEmpty then findFolderIdChars rest else some idChars
    else findFolderIdChars rest

/-- `url.match(/folders\x2f([a-zA-Z0-9_-]+)/)`, returning the capture group. -/
def extractFolderId (url : String) : Option String :=
  (findFolderIdChars url.data).map (fun cs => ⟨cs⟩)

/-- Result of `checkFolderEmpty_`. -/
inductive EmptyStatus where
  | has_files
  | empty
  | empty_tree
  | has_subfolders
deriving DecidableEq, Repr

mutual

/-- `checkFolderEmpty_(folder, depth)` (source lines 404-435): any direct
file means `has_files`; no files and no subfolders means `empty`; at the
MAX_DEPTH bound (5) a folder with subfolders is reported `has_subfolders`;
otherwise the subfolders are visited in order, `has_files` propagating up,
and `empty_tree` is returned when no subfolder revealed a file. -/
def checkFolderEmpty_ : FolderHandle → Nat → EmptyStatus
  | .mk _ _ _ _ _ hasFile subs, depth =>
    if hasFile then .has_files
    else if subs.isEmpty then .empty
    else if 5 ≤ depth then .has_subfolders
    else if anySubtreeHasFiles subs (depth + 1) then .has_files
    else .empty_tree

/-- The `while (subfolders.hasNext())` loop of `checkFolderEmpty_`: true as
soon as some subfolder reports `has_files` (short-circuiting like the early
`return`). -/
def anySubtreeHasFiles : List FolderHandle → Nat → Bool
  | [], _ => false
  | sub :: rest, depth =>
    if checkFolderEmpty_ sub depth = .has_files then true
    else anySubtreeHasFiles rest depth

end

/-- `headers.indexOf(name) + 1` with the JS convention that a missed lookup
(-1, giving column 0) is a failure. -/
def findCol (headers : List String) (name : String) : Option Nat :=
  let i := headers.indexOf name
  if i < headers.length then some (i + 1) else none

/-- Locate the URL column: `headers.indexOf("Folder URL") + 1`, falling back
to "Subfolder URL". -/
def findUrlCol (headers : List String) : Option Nat :=
  match findCol headers "Folder URL" with
  | some c => some c
  | none => findCol headers "Subfolder URL"

/-- The selection loop of `removeMarkedFolders` (source lines 570-635): read
the first 6 header cells, find the Action and URL columns, read the data
rows truncated at the Action column, and keep every row whose Action cell,
trimmed and lowercased, is exactly "remove", "delete" or "x" and whose URL
cell is a nonempty string containing "drive.google.com" and matching the
folder-id pattern.  Each kept entry records the 1-based sheet row, the first
cell and the extracted folder id. -/
def removeMarkedTargets (headers : List String) (grid : List (List String)) :
    List (Nat × String × String) :=
  let hs := headers.take 6
  match findCol hs "Action" with
  | none => []
  | some actionCol =>
    match findUrlCol hs with
    | none => []
    | some urlCol =>
      grid.enum.filterMap (fun p =>
        let row := p.snd.take actionCol
        let action := jsToLower (jsTrim (row.getD (actionCol - 1) ""))
        let url := row.getD (urlCol - 1) ""
        if (action = "remove" ∨ action = "delete" ∨ action = "x") ∧ url ≠ ""
            ∧ jsIncludes url "drive.google.com" = true then
          match extractFolderId url with
          | some fid => some (p.fst + 2, row.getD 0 "", fid)
          | none => none
        else none)

/-- The removal loop of `removeMarkedFolders` (source lines 668-688): for
each selected entry resolve the id and call `setTrashed(true)`; a folder
whose resolution throws is skipped (its row is marked "Error").  The value
is the list of folder ids actually moved to the trash, in order. -/
def removeMarkedTrashed (drive : Drive) (headers : List String)
    (grid : List (List String)) : List String :=
  (removeMarkedTargets headers grid).filterMap (fun t =>
    match drive.getFolderById t.snd.snd with
    | some _ => some t.snd.snd
    | none => none)

/-- Outcome reported by `updateFolderList`. -/
inductive UpdateResult where
  | noFolderConfigured
  | noData
  | missingUrlColumn
  | accessError
  | done (scanned newCount : Nat)
deriving DecidableEq, Repr

/-- `updateFolderList()` (source lines 829-958): stop with an alert when no
ROOT_FOLDER_ID is saved; detect the mode from the header row; collect the
existing URL-column values of the data rows into a set; resolve the saved
root; append one row per (sub)folder whose URL is not already present.  The
`lastRow <= 1` guard is rendered as the data-row list being empty (the
instruction cells `setupSheet_` writes in column G, which keep the real
`getLastRow()` above 1 and whose reads yield empty cells that the URL set
skips, are not modelled). -/
def updateFolderList (drive : Drive) (w : World) : World × UpdateResult :=
  match w.props.rootFolderId with
  | none => (w, .noFolderConfigured)
  | some rootFolderId =>
    let headers := w.headers
    let includeSubfolders := headers.contains "Subfolder"
    if w.sink.isEmpty then (w, .noData)
    else
      match findUrlCol headers with
      | none => (w, .missingUrlColumn)
      | some urlCol =>
        let existingUrls :=
          (w.sink.map (fun row => row.getD (urlCol - 1) "")).filter (fun u => u ≠ "")
        match drive.resolveRoot rootFolderId with
        | none => (w, .accessError)
        | some rootFolder =>
          let newData := rootFolder.subs.flatMap (fun folder =>
            if includeSubfolders then
              folder.subs.filterMap (fun sub =>
                if existingUrls.contains sub.url then none
                else some [statusTagOf drive.nowMs sub.lastUpdatedMs,
                           folder.name, sub.name, sub.url, sub.dateFormatted, ""])
            else
              if existingUrls.contains folder.url then []
              else [[statusTagOf drive.nowMs folder.lastUpdatedMs, folder.name,
                     folder.url, folder.dateFormatted, ""]])
          ( { w with sink := w.sink ++ newData },
            .done rootFolder.subs.length newData.length )

/-- The rows the scanner produces for a list of snapshot ids, in order. -/
def entryRows (drive : Drive) (incSub : Bool) (ids : List String) : List Row :=
  (ids.map (processEntry drive incSub)).flatten

/-- Helper: the state persisted on the pause path after `budget` entries. -/
def pausedState (state : ScanState) (budget : Nat) : ScanState :=
  { folderIds := state.folderIds
    currentIndex := state.currentIndex + budget
    totalFolders := state.totalFolders
    processedCount := state.processedCount + budget
    includeSubfolders := state.includeSubfolders }

/-- Run a sequence of resume invocations (the user clicking "Resume Listing"
repeatedly), each with its own time budget. -/
def runSlices (drive : Drive) (budgets : List Nat) (w : World) : World :=
  match budgets with
  | [] => w
  | b :: rest => runSlices drive rest (resumeListing drive b w).fst

/-- A world mid-scan: a state is persisted, a root id is saved, and the sink
holds exactly the rows of the already-processed prefix of the snapshot. -/
def MidScan (drive : Drive) (incSub : Bool) (ids : List String) (w : World) : Prop :=
  ∃ (s : ScanState) (r : String),
    w.props.rootFolderId = some r ∧
    w.props.processState = some s ∧
    s.folderIds = ids ∧
    s.includeSubfolders = incSub ∧
    s.currentIndex < ids.length ∧
    w.sink = entryRows drive incSub (ids.take s.currentIndex)

/-- A world after the scan completed: keys cleared, sink holds the rows of
the whole snapshot. -/
def DoneScan (drive : Drive) (incSub : Bool) (ids : List String) (w : World) : Prop :=
  w.props.rootFolderId = none ∧ w.sink = entryRows drive incSub ids

/-- The worlds seen before and after each resume invocation of a session. -/
def worldsTrace (drive : Drive) (budgets : List Nat) (w : World) : List World :=
  match budgets with
  | [] => [w]
  | b :: rest => w :: worldsTrace drive rest (resumeListing drive b w).fst

/-- The claimed bounds on one persisted state (vacuous when none is stored). -/
def stateBoundsOK : Option ScanState → Bool
  | none => true
  | some s =>
    decide (s.currentIndex ≤ s.folderIds.length ∧ s.processedCount ≤ s.totalFolders)

/-- The claimed monotonicity between two successively persisted states. -/
def monotoneStep : Option ScanState → Option ScanState → Bool
  | some s, some s2 =>
    decide (s.currentIndex ≤ s2.currentIndex ∧ s.processedCount ≤ s2.processedCount)
  | _, _ => true

def pairwiseMonotone : List (Option ScanState) → Bool
  | a :: b :: rest => monotoneStep a b && pairwiseMonotone (b :: rest)
  | _ => true

/-- The inductive strengthening: whenever the script persists a state, the
cursor stays within the snapshot, the processed counter equals the cursor,
and `totalFolders` is the snapshot length. -/
def StrongInv : Option ScanState → Prop
  | none => True
  | some s => s.currentIndex ≤ s.folderIds.length ∧
      s.processedCount = s.currentIndex ∧ s.totalFolders = s.folderIds.length

/-- Specification-side predicate: the tree contains a file in some folder at
depth at most `bound` below (and including) the given folder. -/
def hasFileWithinDepth : Nat → FolderHandle → Bool
  | 0, f => f.hasFile
  | b + 1, f => f.hasFile || f.subs.any (hasFileWithinDepth b)


/-- Concrete fixtures for the witness instances: a root with three child
folders. -/
def leafA : FolderHandle := .mk "idA" "A" "urlA" 0 "2024-01-01" false []

def leafB : FolderHandle := .mk "idB" "B" "urlB" 0 "2024-01-02" false []

def leafC : FolderHandle := .mk "idC" "C" "urlC" 0 "2024-01-03" false []

def rootF : FolderHandle :=
  .mk "rootId" "Root" "urlR" 0 "2024-01-04" false [leafA, leafB, leafC]

/-- All four folders resolvable. -/
def drive0 : Drive :=
  { byId := [("idA", leafA), ("idB", leafB), ("idC", leafC), ("rootId", rootF)]
    root := rootF
    nowMs := 0
    exnMsg := "gone" }

/-- Folder idB deleted between snapshot and resume. -/
def driveB : Drive :=
  { byId := [("idA", leafA), ("idC", leafC), ("rootId", rootF)]
    root := rootF
    nowMs := 0
    exnMsg := "gone" }

/-- No folder id resolvable. -/
def driveNone : Drive :=
  { byId := [], root := rootF, nowMs := 0, exnMsg := "not found" }

def w0 : World :=
  { props := { processState := none, rootFolderId := none, includeSubfolders := none }
    sink := []
    headers := [] }

/-- A persisted mid-scan state over the three snapshot ids, cursor at 0. -/
def sABC : ScanState :=
  { folderIds := ["idA", "idB", "idC"]
    currentIndex := 0
    totalFolders := 3
    processedCount := 0
    includeSubfolders := false }

def wMid : World :=
  { props := { processState := some sABC, rootFolderId := some "rootId",
               includeSubfolders := some "false" }
    sink := []
    headers := headersFor false }

/-- A store left over from an earlier scan of a different root. -/
def wPrev : World :=
  { props := { processState := none, rootFolderId := some "oldRoot",
               includeSubfolders := some "true" }
    sink := []
    headers := [] }

/-- A folder with one completely empty subfolder. -/
def parentT : FolderHandle := .mk "p" "P" "urlP" 0 "d" false [leafA]

/-- A folder directly containing a file. -/
def fileT : FolderHandle := .mk "q" "Q" "urlQ" 0 "d" true []

/-- A chain of empty folders with a file at the bottom, n levels down. -/
def deepT : Nat → FolderHandle
  | 0 => fileT
  | n + 1 => .mk "r" "R" "urlR2" 0 "d" false [deepT n]

/-- One sheet row marked for removal with a valid Drive URL. -/
def gridC : List (List String) :=
  [["", "C", "https://drive.google.com/drive/folders/idC?x=1", "d", " Delete "]]


theorem entryRows_nil (drive : Drive) (incSub : Bool) :
    entryRows drive incSub [] = [] := rfl

theorem entryRows_cons (drive : Drive) (incSub : Bool) (a : String) (l : List String) :
    entryRows drive incSub (a :: l) =
      processEntry drive incSub a ++ entryRows drive incSub l := by
  simp [entryRows]

theorem minSucc (a b : Nat) : Nat.min (a + 1) (b + 1) = Nat.min a b + 1 := by
  simp only [Nat.min_def]
  split <;> split <;> omega

theorem processLoop_spec (drive : Drive) (incSub : Bool) (budget : Nat) :
    ∀ (fuel : Nat) (state : ScanState) (data : List Row) (ptr : Nat) (sink : List Row),
    state.folderIds.length - state.currentIndex ≤ fuel →
    (processLoop drive incSub budget fuel state data ptr sink).state =
      { state with currentIndex :=
          state.currentIndex +
            Nat.min (state.folderIds.length - state.currentIndex) (budget - ptr) } ∧
    (processLoop drive incSub budget fuel state data ptr sink).processedThisRun =
      ptr + Nat.min (state.folderIds.length - state.currentIndex) (budget - ptr) ∧
    (processLoop drive incSub budget fuel state data ptr sink).sink ++
        (processLoop drive incSub budget fuel state data ptr sink).data =
      sink ++ data ++ entryRows drive incSub
        ((state.folderIds.drop state.currentIndex).take
          (Nat.min (state.folderIds.length - state.currentIndex) (budget - ptr))) ∧
    (processLoop drive incSub budget fuel state data ptr sink).paused =
      decide (state.currentIndex +
          Nat.min (state.folderIds.length - state.currentIndex) (budget - ptr) <
        state.folderIds.length) := by
  intro fuel
  induction fuel with
  | zero =>
    intro state data ptr sink hfuel
    rw [processLoop]
    have hn : ¬ state.currentIndex < state.folderIds.length := by omega
    have h0 : state.folderIds.length - state.currentIndex = 0 := by omega
    simp [hn, h0, entryRows_nil]
  | succ fuel ih =>
    intro state data ptr sink hfuel
    rw [processLoop]
    by_cases h : state.currentIndex < state.folderIds.length
    · by_cases hb : budget ≤ ptr
      · have h0 : budget - ptr = 0 := by omega
        simp [h, hb, h0, entryRows_nil]
      · simp only [dif_pos h, if_neg hb]
        have e1 : state.folderIds.length - state.currentIndex =
            (state.folderIds.length - (state.currentIndex + 1)) + 1 := by omega
        have e2 : budget - ptr = (budget - (ptr + 1)) + 1 := by omega
        have hdrop : state.folderIds.drop state.currentIndex =
            state.folderIds.get ⟨state.currentIndex, h⟩ ::
              state.folderIds.drop (state.currentIndex + 1) := by
          rw [List.get_eq_getElem]
          exact List.drop_eq_getElem_cons h
        have hfuel2 :
            ({ state with currentIndex := state.currentIndex + 1 } :
                ScanState).folderIds.length -
              ({ state with currentIndex := state.currentIndex + 1 } :
                ScanState).currentIndex ≤ fuel := by
          simp
          omega
        by_cases hbatch : (ptr + 1) % BATCH_SIZE = 0
        · simp only [if_pos hbatch]
          obtain ⟨ih1, ih2, ih3, ih4⟩ :=
            ih { state with currentIndex := state.currentIndex + 1 } []
              (ptr + 1)
              (sink ++ (data ++ processEntry drive incSub
                (state.folderIds.get ⟨state.currentIndex, h⟩)))
              hfuel2
          simp only at ih1 ih2 ih3 ih4
          rw [e1, e2, minSucc]
          refine ⟨?_, ?_, ?_, ?_⟩
          · rw [ih1]
            congr 1
            omega
          · rw [ih2]; omega
          · rw [ih3, hdrop, List.take_succ_cons, entryRows_cons]
            simp
          · rw [ih4]
            simp only [decide_eq_decide]
            omega
        · simp only [if_neg hbatch]
          obtain ⟨ih1, ih2, ih3, ih4⟩ :=
            ih { state with currentIndex := state.currentIndex + 1 }
              (data ++ processEntry drive incSub
                (state.folderIds.get ⟨state.currentIndex, h⟩))
              (ptr + 1) sink hfuel2
          simp only at ih1 ih2 ih3 ih4
          rw [e1, e2, minSucc]
          refine ⟨?_, ?_, ?_, ?_⟩
          · rw [ih1]
            congr 1
            omega
          · rw [ih2]; omega
          · rw [ih3, hdrop, List.take_succ_cons, entryRows_cons]
            simp
          · rw [ih4]
            simp only [decide_eq_decide]
            omega
    · have h0 : state.folderIds.length - state.currentIndex = 0 := by omega
      simp [h, h0, entryRows_nil]

theorem runLoopAndFinish_paused (drive : Drive) (budget : Nat) (state : ScanState)
    (w : World) (h : state.currentIndex + budget < state.folderIds.length) :
    runLoopAndFinish drive budget state w =
      ( { w with
            props := { w.props with processState := some (pausedState state budget) }
            sink := w.sink ++ entryRows drive state.includeSubfolders
              ((state.folderIds.drop state.currentIndex).take budget) },
        .paused (state.processedCount + budget) state.totalFolders ) := by
  obtain ⟨h1, h2, h3, h4⟩ :=
    processLoop_spec drive state.includeSubfolders budget
      (state.folderIds.length - state.currentIndex) state [] 0 w.sink le_rfl
  have hmin : Nat.min (state.folderIds.length - state.currentIndex) (budget - 0) = budget := by
    simp only [Nat.min_def]
    split <;> omega
  rw [hmin] at h1 h2 h3 h4
  have hp : (processLoop drive state.includeSubfolders budget
      (state.folderIds.length - state.currentIndex) state [] 0 w.sink).paused = true := by
    rw [h4]
    simp only [decide_eq_true_eq]
    omega
  simp only [runLoopAndFinish, hp, if_true, h3]
  simp only [h1, h2]
  simp [pausedState]

theorem runLoopAndFinish_complete (drive : Drive) (budget : Nat) (state : ScanState)
    (w : World) (h : state.folderIds.length ≤ state.currentIndex + budget) :
    runLoopAndFinish drive budget state w =
      ( { w with
            props := clearProgress_ w.props
            sink := w.sink ++ entryRows drive state.includeSubfolders
              (state.folderIds.drop state.currentIndex) },
        .complete state.totalFolders ) := by
  obtain ⟨h1, h2, h3, h4⟩ :=
    processLoop_spec drive state.includeSubfolders budget
      (state.folderIds.length - state.currentIndex) state [] 0 w.sink le_rfl
  have hmin : Nat.min (state.folderIds.length - state.currentIndex) (budget - 0) =
      state.folderIds.length - state.currentIndex := by
    simp only [Nat.min_def]
    split <;> omega
  rw [hmin] at h1 h2 h3 h4
  have hp : (processLoop drive state.includeSubfolders budget
      (state.folderIds.length - state.currentIndex) state [] 0 w.sink).paused = false := by
    rw [h4]
    simp only [decide_eq_false_iff_not]
    omega
  have htake : (state.folderIds.drop state.currentIndex).take
      (state.folderIds.length - state.currentIndex) =
      state.folderIds.drop state.currentIndex := by
    have hlen : (state.folderIds.drop state.currentIndex).length =
        state.folderIds.length - state.currentIndex := by
      simp
    rw [← hlen, List.take_length]
  rw [htake] at h3
  simp only [runLoopAndFinish, hp, Bool.false_eq_true, if_false, h3]
  simp only [h1]
  simp

theorem processAllFolders_of_state (drive : Drive) (r : String) (m : Bool)
    (budget : Nat) (w : World) (s : ScanState)
    (hs : w.props.processState = some s) :
    processAllFolders_ drive r m budget w = runLoopAndFinish drive budget s w := by
  simp only [processAllFolders_, hs]

theorem processAllFolders_fresh (drive : Drive) (r : String) (m : Bool)
    (budget : Nat) (w : World) (f : FolderHandle)
    (hs : w.props.processState = none) (hr : drive.resolveRoot r = some f) :
    processAllFolders_ drive r m budget w =
      runLoopAndFinish drive budget
        { folderIds := f.subs.map FolderHandle.id
          currentIndex := 0
          totalFolders := (f.subs.map FolderHandle.id).length
          processedCount := 0
          includeSubfolders := m } w := by
  simp only [processAllFolders_, hs, hr]

theorem processAllFolders_rootFail (drive : Drive) (r : String) (m : Bool)
    (budget : Nat) (w : World)
    (hs : w.props.processState = none) (hr : drive.resolveRoot r = none) :
    processAllFolders_ drive r m budget w = (w, .rootError) := by
  simp only [processAllFolders_, hs, hr]

theorem entryRows_append (drive : Drive) (incSub : Bool) (l1 l2 : List String) :
    entryRows drive incSub (l1 ++ l2) =
      entryRows drive incSub l1 ++ entryRows drive incSub l2 := by
  simp [entryRows]

theorem resumeListing_step (drive : Drive) (incSub : Bool) (ids : List String)
    (b : Nat) (w : World) (hw : MidScan drive incSub ids w ∨ DoneScan drive incSub ids w) :
    MidScan drive incSub ids (resumeListing drive b w).fst ∨
      DoneScan drive incSub ids (resumeListing drive b w).fst := by
  rcases hw with hmid | hdone
  · obtain ⟨s, r, hroot, hstate, hids, hinc, hlt, hsink⟩ := hmid
    simp only [resumeListing, hroot]
    rw [processAllFolders_of_state drive r (w.props.includeSubfolders == some "true") b w s hstate]
    by_cases hb : s.currentIndex + b < s.folderIds.length
    · left
      rw [runLoopAndFinish_paused drive b s w hb]
      refine ⟨pausedState s b, r, hroot, rfl, hids, hinc, ?_, ?_⟩
      · simp [pausedState, ← hids]
        omega
      · simp only [pausedState, hsink, hids, hinc]
        rw [← entryRows_append, ← List.take_add]
    · right
      rw [runLoopAndFinish_complete drive b s w (by omega)]
      refine ⟨rfl, ?_⟩
      simp only [hsink, hids, hinc]
      rw [← entryRows_append, List.take_append_drop]
  · obtain ⟨hroot, hsink⟩ := hdone
    simp only [resumeListing, hroot]
    exact Or.inr ⟨hroot, hsink⟩

theorem runSlices_step (drive : Drive) (incSub : Bool) (ids : List String)
    (budgets : List Nat) :
    ∀ (w : World), MidScan drive incSub ids w ∨ DoneScan drive incSub ids w →
      MidScan drive incSub ids (runSlices drive budgets w) ∨
        DoneScan drive incSub ids (runSlices drive budgets w) := by
  induction budgets with
  | nil => intro w hw; exact hw
  | cons b rest ih =>
    intro w hw
    exact ih _ (resumeListing_step drive incSub ids b w hw)

theorem startListing_establishes (drive : Drive) (inc : Bool) (enteredId : String)
    (b0 : Nat) (w : World) (f : FolderHandle)
    (hr : drive.resolveRoot enteredId = some f) :
    MidScan drive inc (f.subs.map FolderHandle.id)
        (startListing_ drive inc enteredId b0 w).fst ∨
      DoneScan drive inc (f.subs.map FolderHandle.id)
        (startListing_ drive inc enteredId b0 w).fst := by
  simp only [startListing_, clearProgress_]
  rw [processAllFolders_fresh drive enteredId inc b0 _ f rfl hr]
  set ids := f.subs.map FolderHandle.id with hids
  by_cases hb : b0 < ids.length
  · left
    rw [runLoopAndFinish_paused drive b0 _ _ (by simpa using hb)]
    refine ⟨_, enteredId, rfl, rfl, rfl, rfl, ?_, ?_⟩
    · simpa [pausedState] using hb
    · simp [pausedState]
  · right
    rw [runLoopAndFinish_complete drive b0 _ _ (by simp; omega)]
    exact ⟨rfl, by simp⟩

theorem startListing_complete (drive : Drive) (inc : Bool) (enteredId : String)
    (b0 : Nat) (w : World) (f : FolderHandle)
    (hr : drive.resolveRoot enteredId = some f)
    (hb : (f.subs.map FolderHandle.id).length ≤ b0) :
    startListing_ drive inc enteredId b0 w =
      ( { props := { processState := none, rootFolderId := none, includeSubfolders := none }
          sink := entryRows drive inc (f.subs.map FolderHandle.id)
          headers := headersFor inc },
        .complete (f.subs.map FolderHandle.id).length ) := by
  simp only [startListing_, clearProgress_]
  rw [processAllFolders_fresh drive enteredId inc b0 _ f rfl hr]
  rw [runLoopAndFinish_complete drive b0 _ _ (by simpa using hb)]
  simp [clearProgress_]

/-- C1: for every drive, root and mode, running the scan to completion in a
single invocation and running it across several time-boxed invocations (the
first via `startListing_`, the rest via `resumeListing` with the persisted
state) produce the same ordered sequence of data rows in the sink: once the
sliced session has completed (all keys cleared), its sink equals the sink of
the single-budget run, and that single run indeed completes. -/
theorem scan_in_slices_equals_single_run (drive : Drive) (inc : Bool)
    (rootId : String) (b0 : Nat) (budgets : List Nat) (w0 : World) (f : FolderHandle)
    (hr : drive.resolveRoot rootId = some f)
    (hdone : (runSlices drive budgets
        (startListing_ drive inc rootId b0 w0).fst).props.rootFolderId = none) :
    (runSlices drive budgets (startListing_ drive inc rootId b0 w0).fst).sink =
      (startListing_ drive inc rootId (f.subs.map FolderHandle.id).length w0).fst.sink ∧
    (startListing_ drive inc rootId (f.subs.map FolderHandle.id).length w0).snd =
      .complete (f.subs.map FolderHandle.id).length := by
  have hstart := startListing_establishes drive inc rootId b0 w0 f hr
  have hmd := runSlices_step drive inc (f.subs.map FolderHandle.id) budgets _ hstart
  have hsingle := startListing_complete drive inc rootId
    (f.subs.map FolderHandle.id).length w0 f hr le_rfl
  constructor
  · rcases hmd with hmid | hdn
    · obtain ⟨s, r, hroot, _⟩ := hmid
      rw [hroot] at hdone
      cases hdone
    · rw [hdn.2, hsingle]
  · rw [hsingle]

/-- Pause path of an invocation that starts from a stored state: all buffered
rows flushed, the full five-field state persisted, paused result. -/
theorem processAllFolders_paused (drive : Drive) (r : String) (m : Bool)
    (budget : Nat) (w : World) (s : ScanState)
    (hs : w.props.processState = some s)
    (hb : s.currentIndex + budget < s.folderIds.length) :
    processAllFolders_ drive r m budget w =
      ( { w with
            props := { w.props with
              processState := some ⟨s.folderIds, s.currentIndex + budget,
                s.totalFolders, s.processedCount + budget, s.includeSubfolders⟩ }
            sink := w.sink ++ entryRows drive s.includeSubfolders
              ((s.folderIds.drop s.currentIndex).take budget) },
        .paused (s.processedCount + budget) s.totalFolders ) := by
  rw [processAllFolders_of_state drive r m budget w s hs,
    runLoopAndFinish_paused drive budget s w hb]
  rfl

/-- Completion path of an invocation that starts from a stored state: all
remaining rows flushed, all three keys deleted, completion reported. -/
theorem processAllFolders_completes (drive : Drive) (r : String) (m : Bool)
    (budget : Nat) (w : World) (s : ScanState)
    (hs : w.props.processState = some s)
    (hb : s.folderIds.length ≤ s.currentIndex + budget) :
    processAllFolders_ drive r m budget w =
      ( { w with
            props := { processState := none, rootFolderId := none,
                       includeSubfolders := none }
            sink := w.sink ++ entryRows drive s.includeSubfolders
              (s.folderIds.drop s.currentIndex) },
        .complete s.totalFolders ) := by
  rw [processAllFolders_of_state drive r m budget w s hs,
    runLoopAndFinish_complete drive budget s w hb]
  rfl

/-- C7: when a ScanState is persisted, a re-invocation ignores any newly
supplied root and mode arguments entirely (identical results for any two
argument pairs), derives its rows from the stored `includeSubfolders` flag
and the stored snapshot starting at the stored `currentIndex` (never
re-deriving `folderIds`), and any newly persisted state keeps the snapshot
and flag with the cursor advanced by the processed count. -/
theorem resume_ignores_arguments (drive : Drive) (r1 r2 : String) (m1 m2 : Bool)
    (budget : Nat) (w : World) (s : ScanState)
    (hs : w.props.processState = some s) :
    processAllFolders_ drive r1 m1 budget w = processAllFolders_ drive r2 m2 budget w ∧
    (processAllFolders_ drive r1 m1 budget w).fst.sink =
      w.sink ++ entryRows drive s.includeSubfolders
        ((s.folderIds.drop s.currentIndex).take budget) ∧
    (∀ s2 : ScanState,
      (processAllFolders_ drive r1 m1 budget w).fst.props.processState = some s2 →
        s2.folderIds = s.folderIds ∧ s2.includeSubfolders = s.includeSubfolders ∧
        s2.currentIndex = s.currentIndex + budget) := by
  refine ⟨?_, ?_, ?_⟩
  · rw [processAllFolders_of_state drive r1 m1 budget w s hs,
      processAllFolders_of_state drive r2 m2 budget w s hs]
  · by_cases hb : s.currentIndex + budget < s.folderIds.length
    · rw [processAllFolders_paused drive r1 m1 budget w s hs hb]
    · rw [processAllFolders_completes drive r1 m1 budget w s hs (by omega)]
      have htake : (s.folderIds.drop s.currentIndex).take budget =
          s.folderIds.drop s.currentIndex := by
        apply List.take_of_length_le
        simp
        omega
      rw [htake]
  · intro s2 hs2
    by_cases hb : s.currentIndex + budget < s.folderIds.length
    · rw [processAllFolders_paused drive r1 m1 budget w s hs hb] at hs2
      simp at hs2
      rw [← hs2]
      exact ⟨rfl, rfl, rfl⟩
    · rw [processAllFolders_completes drive r1 m1 budget w s hs (by omega)] at hs2
      simp at hs2

/-- C8 (amended): if resolving the root folder identifier fails on a fresh
scan, the error is reported to the caller, the scan aborts without
processing any entry (empty sink) and no ScanState record is persisted;
however the saved root-id and mode keys have already been overwritten with
the newly entered values, so the stored state does not equal its prior
value. -/
theorem root_failure_aborts (drive : Drive) (inc : Bool) (enteredId : String)
    (b : Nat) (w : World) (hfail : drive.resolveRoot enteredId = none) :
    (startListing_ drive inc enteredId b w).snd = .rootError ∧
    (startListing_ drive inc enteredId b w).fst.props.processState = none ∧
    (startListing_ drive inc enteredId b w).fst.sink = [] ∧
    (startListing_ drive inc enteredId b w).fst.props.rootFolderId = some enteredId ∧
    (startListing_ drive inc enteredId b w).fst.props.includeSubfolders =
      some (if inc then "true" else "false") := by
  simp only [startListing_, clearProgress_]
  rw [processAllFolders_rootFail drive enteredId inc b _ rfl hfail]
  exact ⟨rfl, rfl, rfl, rfl, rfl⟩

/-- C10: on natural completion the cleanup deletes the ScanState record and
also the saved root-id and mode keys, so that afterwards a resume
invocation reports nothing to resume and the update-list operation reports
no folder configured, both leaving the world unchanged. -/
theorem completion_clears_all_keys (drive : Drive) (r : String) (m : Bool)
    (budget : Nat) (w : World) (s : ScanState)
    (hs : w.props.processState = some s)
    (hb : s.folderIds.length ≤ s.currentIndex + budget) :
    (processAllFolders_ drive r m budget w).fst.props =
      { processState := none, rootFolderId := none, includeSubfolders := none } ∧
    (∀ (drive2 : Drive) (b2 : Nat),
      resumeListing drive2 b2 (processAllFolders_ drive r m budget w).fst =
        ((processAllFolders_ drive r m budget w).fst, .nothingToResume)) ∧
    (∀ (drive2 : Drive),
      updateFolderList drive2 (processAllFolders_ drive r m budget w).fst =
        ((processAllFolders_ drive r m budget w).fst, .noFolderConfigured)) := by
  rw [processAllFolders_completes drive r m budget w s hs hb]
  refine ⟨rfl, ?_, ?_⟩
  · intro drive2 b2
    rfl
  · intro drive2
    rfl

/-- C2: if entry k of the snapshot fails to resolve, the scan emits exactly
one error row for that entry and still processes every later entry: the
final sink is the rows of entries before k, then the single error row, then
the rows of entries after k; the run still reports completion, so one bad
folder never aborts the scan. -/
theorem failing_entry_is_isolated (drive : Drive) (r : String) (m : Bool)
    (budget : Nat) (w : World) (s : ScanState) (k : Nat)
    (hs : w.props.processState = some s)
    (hidx : s.currentIndex = 0)
    (hbudget : s.folderIds.length ≤ budget)
    (hk : k < s.folderIds.length)
    (hfail : drive.getFolderById (s.folderIds.getD k "") = none) :
    processEntry drive s.includeSubfolders (s.folderIds.getD k "") =
      [errorRow drive s.includeSubfolders] ∧
    (processAllFolders_ drive r m budget w).fst.sink =
      w.sink ++ entryRows drive s.includeSubfolders (s.folderIds.take k)
        ++ [errorRow drive s.includeSubfolders]
        ++ entryRows drive s.includeSubfolders (s.folderIds.drop (k + 1)) ∧
    (processAllFolders_ drive r m budget w).snd = .complete s.totalFolders := by
  have hentry : processEntry drive s.includeSubfolders (s.folderIds.getD k "") =
      [errorRow drive s.includeSubfolders] := by
    rw [processEntry, hfail]
  have hsplit : s.folderIds =
      s.folderIds.take k ++ s.folderIds.getD k "" :: s.folderIds.drop (k + 1) := by
    conv_lhs => rw [← List.take_append_drop k s.folderIds]
    congr 1
    rw [List.getD_eq_getElem s.folderIds "" hk]
    exact List.drop_eq_getElem_cons hk
  rw [processAllFolders_completes drive r m budget w s hs (by omega)]
  refine ⟨hentry, ?_, rfl⟩
  simp only [hidx, List.drop_zero]
  conv_lhs => rw [hsplit]
  rw [entryRows_append, entryRows_cons, hentry]
  simp

theorem runLoopAndFinish_strongInv (drive : Drive) (budget : Nat) (s : ScanState)
    (w : World) (hI : StrongInv (some s)) :
    StrongInv ((runLoopAndFinish drive budget s w).fst.props.processState) ∧
    monotoneStep (some s)
      ((runLoopAndFinish drive budget s w).fst.props.processState) = true := by
  obtain ⟨h1, h2, h3⟩ := hI
  by_cases hb : s.currentIndex + budget < s.folderIds.length
  · rw [runLoopAndFinish_paused drive budget s w hb]
    constructor
    · refine ⟨?_, ?_, ?_⟩ <;> simp [pausedState] <;> omega
    · simp [monotoneStep, pausedState]
  · rw [runLoopAndFinish_complete drive budget s w (by omega)]
    exact ⟨trivial, rfl⟩

theorem resumeListing_strongInv (drive : Drive) (b : Nat) (w : World)
    (hI : StrongInv w.props.processState) :
    StrongInv ((resumeListing drive b w).fst.props.processState) ∧
    monotoneStep w.props.processState
      ((resumeListing drive b w).fst.props.processState) = true := by
  rcases hroot : w.props.rootFolderId with _ | r
  · simp only [resumeListing, hroot]
    refine ⟨hI, ?_⟩
    cases hps : w.props.processState with
    | none => rfl
    | some s => simp [monotoneStep]
  · simp only [resumeListing, hroot]
    cases hps : w.props.processState with
    | none =>
      rcases hr : drive.resolveRoot r with _ | f
      · rw [processAllFolders_rootFail drive r _ b w hps hr]
        rw [hps] at hI ⊢
        exact ⟨hI, rfl⟩
      · rw [processAllFolders_fresh drive r _ b w f hps hr]
        have hstep := runLoopAndFinish_strongInv drive b
          ⟨f.subs.map FolderHandle.id, 0, (f.subs.map FolderHandle.id).length, 0,
            w.props.includeSubfolders == some "true"⟩ w
          ⟨Nat.zero_le _, rfl, rfl⟩
        refine ⟨hstep.1, ?_⟩
        cases hres : (runLoopAndFinish drive b
            ⟨f.subs.map FolderHandle.id, 0, (f.subs.map FolderHandle.id).length, 0,
              w.props.includeSubfolders == some "true"⟩ w).fst.props.processState with
        | none => rfl
        | some s2 => rfl
    | some s =>
      rw [processAllFolders_of_state drive r _ b w s hps]
      rw [hps] at hI
      exact runLoopAndFinish_strongInv drive b s w hI

theorem worldsTrace_cons_head (drive : Drive) (budgets : List Nat) (w : World) :
    ∃ t, worldsTrace drive budgets w = w :: t := by
  cases budgets with
  | nil => exact ⟨[], rfl⟩
  | cons b rest => exact ⟨_, rfl⟩

theorem worldsTrace_invariants (drive : Drive) (budgets : List Nat) :
    ∀ (w : World), StrongInv w.props.processState →
    ((worldsTrace drive budgets w).map (fun w => w.props.processState)).all
        stateBoundsOK = true ∧
    pairwiseMonotone ((worldsTrace drive budgets w).map
        (fun w => w.props.processState)) = true := by
  induction budgets with
  | nil =>
    intro w hI
    refine ⟨?_, rfl⟩
    simp only [worldsTrace, List.map, List.all]
    cases hps : w.props.processState with
    | none => rfl
    | some s =>
      rw [hps] at hI
      obtain ⟨h1, h2, h3⟩ := hI
      simp [stateBoundsOK]
      omega
  | cons b rest ih =>
    intro w hI
    obtain ⟨hstep1, hstep2⟩ := resumeListing_strongInv drive b w hI
    obtain ⟨iha, ihp⟩ := ih (resumeListing drive b w).fst hstep1
    have hbounds : stateBoundsOK w.props.processState = true := by
      cases hps : w.props.processState with
      | none => rfl
      | some s =>
        rw [hps] at hI
        obtain ⟨h1, h2, h3⟩ := hI
        simp [stateBoundsOK]
        omega
    constructor
    · simp only [worldsTrace, List.map_cons, List.all_cons, hbounds, Bool.true_and]
      exact iha
    · obtain ⟨t, ht⟩ := worldsTrace_cons_head drive rest (resumeListing drive b w).fst
      rw [ht] at ihp
      simp only [List.map_cons] at ihp
      simp only [worldsTrace, ht, List.map_cons, pairwiseMonotone]
      rw [hstep2, ihp]
      rfl

theorem startListing_strongInv (drive : Drive) (inc : Bool) (rootId : String)
    (b0 : Nat) (w0 : World) :
    StrongInv ((startListing_ drive inc rootId b0 w0).fst.props.processState) := by
  simp only [startListing_, clearProgress_]
  rcases hr : drive.resolveRoot rootId with _ | f
  · rw [processAllFolders_rootFail drive rootId inc b0 _ rfl hr]
    trivial
  · rw [processAllFolders_fresh drive rootId inc b0 _ f rfl hr]
    exact (runLoopAndFinish_strongInv drive b0
      ⟨f.subs.map FolderHandle.id, 0, (f.subs.map FolderHandle.id).length, 0, inc⟩ _
      ⟨Nat.zero_le _, rfl, rfl⟩).1

/-- C6: along any session (a fresh start followed by any sequence of resume
invocations), every persisted ScanState satisfies
`currentIndex ≤ folderIds.length` and `processedCount ≤ totalFolders`, and
between consecutive persisted states neither `currentIndex` nor
`processedCount` ever decreases. -/
theorem scan_state_invariants_and_monotonicity (drive : Drive) (inc : Bool)
    (rootId : String) (b0 : Nat) (budgets : List Nat) (w0 : World) :
    ((worldsTrace drive budgets (startListing_ drive inc rootId b0 w0).fst).map
        (fun w => w.props.processState)).all stateBoundsOK = true ∧
    pairwiseMonotone
      ((worldsTrace drive budgets (startListing_ drive inc rootId b0 w0).fst).map
        (fun w => w.props.processState)) = true :=
  worldsTrace_invariants drive budgets _ (startListing_strongInv drive inc rootId b0 w0)

theorem snd_mem_of_mem_enumFrom {α : Type} :
    ∀ (l : List α) (n : Nat) (p : Nat × α), p ∈ List.enumFrom n l → p.snd ∈ l := by
  intro l
  induction l with
  | nil =>
    intro n p hp
    simp [List.enumFrom] at hp
  | cons a t ih =>
    intro n p hp
    rw [List.enumFrom] at hp
    rcases List.mem_cons.mp hp with h | h
    · subst h
      exact List.mem_cons_self _ _
    · exact List.mem_cons_of_mem _ (ih (n + 1) p h)

theorem exists_mem_enumFrom_of_mem {α : Type} :
    ∀ (l : List α) (n : Nat) (a : α), a ∈ l → ∃ i, (i, a) ∈ List.enumFrom n l := by
  intro l
  induction l with
  | nil =>
    intro n a ha
    cases ha
  | cons b t ih =>
    intro n a ha
    rcases List.mem_cons.mp ha with h | h
    · subst h
      exact ⟨n, by rw [List.enumFrom]; exact List.mem_cons_self _ _⟩
    · obtain ⟨i, hi⟩ := ih (n + 1) a h
      exact ⟨i, by rw [List.enumFrom]; exact List.mem_cons_of_mem _ hi⟩

/-- C9: the marked-folder removal operation trashes a folder id exactly when
the id resolves and some sheet row has an Action cell that, trimmed and
lowercased, is exactly "remove", "delete" or "x", and a URL cell that is
nonempty, contains "drive.google.com" and matches the folders/id pattern
with that id as the capture; in particular no folder is trashed on account
of any other row. -/
theorem remove_marked_trashes_only_marked_rows (drive : Drive)
    (headers : List String) (grid : List (List String)) (fid : String) :
    fid ∈ removeMarkedTrashed drive headers grid ↔
      ((drive.getFolderById fid).isSome = true ∧
        ∃ actionCol urlCol, findCol (headers.take 6) "Action" = some actionCol ∧
          findUrlCol (headers.take 6) = some urlCol ∧
          ∃ row ∈ grid,
            ((jsToLower (jsTrim ((row.take actionCol).getD (actionCol - 1) "")) = "remove" ∨
              jsToLower (jsTrim ((row.take actionCol).getD (actionCol - 1) "")) = "delete" ∨
              jsToLower (jsTrim ((row.take actionCol).getD (actionCol - 1) "")) = "x") ∧
             (row.take actionCol).getD (urlCol - 1) "" ≠ "" ∧
             jsIncludes ((row.take actionCol).getD (urlCol - 1) "") "drive.google.com" = true ∧
             extractFolderId ((row.take actionCol).getD (urlCol - 1) "") = some fid)) := by
  rw [removeMarkedTrashed]
  rw [List.mem_filterMap]
  constructor
  · rintro ⟨t, ht, hres⟩
    rcases hg : drive.getFolderById t.snd.snd with _ | f
    · rw [hg] at hres
      cases hres
    · rw [hg] at hres
      have hfid : t.snd.snd = fid := by
        injection hres
      subst hfid
      refine ⟨by rw [hg]; rfl, ?_⟩
      rw [removeMarkedTargets] at ht
      rcases hA : findCol (headers.take 6) "Action" with _ | actionCol
      · rw [hA] at ht
        cases ht
      rcases hU : findUrlCol (headers.take 6) with _ | urlCol
      · rw [hA, hU] at ht
        cases ht
      rw [hA, hU] at ht
      obtain ⟨p, hp, hsel⟩ := List.mem_filterMap.mp ht
      have hrow : p.snd ∈ grid := snd_mem_of_mem_enumFrom grid 0 p hp
      refine ⟨actionCol, urlCol, rfl, rfl, p.snd, hrow, ?_⟩
      by_cases hcond :
          (jsToLower (jsTrim ((p.snd.take actionCol).getD (actionCol - 1) "")) = "remove" ∨
            jsToLower (jsTrim ((p.snd.take actionCol).getD (actionCol - 1) "")) = "delete" ∨
            jsToLower (jsTrim ((p.snd.take actionCol).getD (actionCol - 1) "")) = "x") ∧
          (p.snd.take actionCol).getD (urlCol - 1) "" ≠ "" ∧
          jsIncludes ((p.snd.take actionCol).getD (urlCol - 1) "") "drive.google.com" = true
      · rw [if_pos hcond] at hsel
        rcases hx : extractFolderId ((p.snd.take actionCol).getD (urlCol - 1) "") with _ | fid2
        · rw [hx] at hsel
          cases hsel
        · rw [hx] at hsel
          have h5 : fid2 = t.snd.snd := by
            injection hsel with hsel2
            rw [← hsel2]
          exact ⟨hcond.1, hcond.2.1, hcond.2.2, congrArg some h5⟩
      · rw [if_neg hcond] at hsel
        cases hsel
  · rintro ⟨hsome, actionCol, urlCol, hA, hU, row, hrow, hc1, hc2, hc3, hc4⟩
    obtain ⟨i, hi⟩ := exists_mem_enumFrom_of_mem grid 0 row hrow
    refine ⟨(i + 2, (row.take actionCol).getD 0 "", fid), ?_, ?_⟩
    · rw [removeMarkedTargets, hA, hU]
      rw [List.mem_filterMap]
      refine ⟨(i, row), hi, ?_⟩
      rw [if_pos ⟨hc1, hc2, hc3⟩, hc4]
    · obtain ⟨f, hf⟩ := Option.isSome_iff_exists.mp hsome
      have hred : drive.getFolderById
          ((i + 2, (row.take actionCol).getD 0 "", fid) :
            Nat × String × String).snd.snd = some f := hf
      rw [hred]

theorem hasFileWithinDepth_zero (f : FolderHandle) :
    hasFileWithinDepth 0 f = f.hasFile := by
  rw [hasFileWithinDepth]

theorem hasFileWithinDepth_succ (b : Nat) (f : FolderHandle) :
    hasFileWithinDepth (b + 1) f = (f.hasFile || f.subs.any (hasFileWithinDepth b)) := by
  rw [hasFileWithinDepth]

theorem checkEmpty_has_files_iff :
    ∀ (n : Nat) (f : FolderHandle), sizeOf f ≤ n → ∀ d : Nat, d ≤ 5 →
      (checkFolderEmpty_ f d = .has_files ↔ hasFileWithinDepth (5 - d) f = true) := by
  intro n
  induction n with
  | zero =>
    intro f hf
    cases f with
    | mk id name url ms df hasFile subs =>
      simp [FolderHandle.mk.sizeOf_spec] at hf
  | succ n ih =>
    intro f hf d hd
    have hlist : ∀ (l : List FolderHandle), (∀ s ∈ l, sizeOf s ≤ n) →
        ∀ d2 : Nat, d2 ≤ 5 →
        anySubtreeHasFiles l d2 = l.any (hasFileWithinDepth (5 - d2)) := by
      intro l
      induction l with
      | nil =>
        intro _ d2 _
        rw [anySubtreeHasFiles, List.any_nil]
      | cons s rest ihl =>
        intro hsz d2 hd2
        rw [anySubtreeHasFiles, List.any_cons]
        have hs := ih s (hsz s (List.mem_cons_self s rest)) d2 hd2
        have hrest := ihl (fun x hx => hsz x (List.mem_cons_of_mem s hx)) d2 hd2
        by_cases hc : checkFolderEmpty_ s d2 = .has_files
        · rw [if_pos hc]
          have hft : hasFileWithinDepth (5 - d2) s = true := hs.mp hc
          rw [hft]
          rfl
        · rw [if_neg hc]
          have hff : hasFileWithinDepth (5 - d2) s = false := by
            cases hres : hasFileWithinDepth (5 - d2) s with
            | false => rfl
            | true => exact absurd (hs.mpr hres) hc
          rw [hff, hrest]
          rfl
    cases f with
    | mk id name url ms df hasFile subs =>
      have hsubs : ∀ s ∈ subs, sizeOf s ≤ n := by
        intro s hsmem
        have h1 : sizeOf s < sizeOf subs := List.sizeOf_lt_of_mem hsmem
        have h2 : sizeOf subs < sizeOf (FolderHandle.mk id name url ms df hasFile subs) := by
          simp [FolderHandle.mk.sizeOf_spec]
        omega
      rw [checkFolderEmpty_]
      cases hasFile with
      | true =>
        rcases h5 : 5 - d with _ | b
        · rw [hasFileWithinDepth_zero]
          simp [FolderHandle.hasFile]
        · rw [hasFileWithinDepth_succ]
          simp [FolderHandle.hasFile]
      | false =>
        simp only [if_false, Bool.false_eq_true, Bool.false_or]
        by_cases hempty : subs.isEmpty
        · rw [if_pos hempty]
          have hnil : subs = [] := List.isEmpty_iff.mp hempty
          subst hnil
          constructor
          · intro hcontr
            cases hcontr
          · intro hcontr
            rcases h5 : 5 - d with _ | b <;> rw [h5] at hcontr
            · rw [hasFileWithinDepth_zero] at hcontr
              cases hcontr
            · rw [hasFileWithinDepth_succ] at hcontr
              simp [FolderHandle.hasFile, FolderHandle.subs] at hcontr
        · rw [if_neg hempty]
          by_cases hbound : 5 ≤ d
          · rw [if_pos hbound]
            have h5 : 5 - d = 0 := by omega
            rw [h5, hasFileWithinDepth_zero]
            constructor
            · intro hcontr
              cases hcontr
            · intro hcontr
              cases hcontr
          · rw [if_neg hbound]
            have h5 : 5 - d = (5 - (d + 1)) + 1 := by omega
            rw [h5, hasFileWithinDepth_succ]
            rw [show (FolderHandle.mk id name url ms df false subs).subs = subs from rfl]
            rw [show (FolderHandle.mk id name url ms df false subs).hasFile = false from rfl]
            rw [hlist subs hsubs (d + 1) (by omega)]
            have harg : 5 - (d + 1) = 5 - d - 1 := by omega
            by_cases hany : subs.any (hasFileWithinDepth (5 - (d + 1))) = true
            · rw [if_pos hany]
              exact ⟨fun _ => hany, fun _ => rfl⟩
            · have hany2 : subs.any (hasFileWithinDepth (5 - (d + 1))) = false := by
                cases hres : subs.any (hasFileWithinDepth (5 - (d + 1))) with
                | false => rfl
                | true => exact absurd hres hany
              rw [if_neg (by rw [hany2]; exact Bool.false_ne_true)]
              rw [hany2]
              constructor
              · intro hcontr
                cases hcontr
              · intro hcontr
                cases hcontr

theorem anySubtreeHasFiles_leaves_false :
    ∀ (l : List FolderHandle), (∀ s ∈ l, s.hasFile = false ∧ s.subs = []) →
      ∀ d : Nat, anySubtreeHasFiles l d = false := by
  intro l
  induction l with
  | nil =>
    intro _ d
    rw [anySubtreeHasFiles]
  | cons s rest ih =>
    intro hall d
    rw [anySubtreeHasFiles]
    obtain ⟨hf, hsub⟩ := hall s (List.mem_cons_self s rest)
    have hcheck : checkFolderEmpty_ s d = .empty := by
      cases s with
      | mk id name url ms df hasFile subs =>
        simp [FolderHandle.hasFile] at hf
        simp [FolderHandle.subs] at hsub
        subst hf
        subst hsub
        rw [checkFolderEmpty_]
        rfl
    rw [if_neg (by rw [hcheck]; intro hcontr; cases hcontr)]
    exact ih (fun x hx => hall x (List.mem_cons_of_mem s hx)) d

theorem checkEmpty_leaf (f : FolderHandle)
    (hf : f.hasFile = false) (hsub : f.subs = []) :
    checkFolderEmpty_ f 0 = .empty := by
  cases f with
  | mk id name url ms df hasFile subs =>
    simp [FolderHandle.hasFile] at hf
    simp [FolderHandle.subs] at hsub
    subst hf
    subst hsub
    rw [checkFolderEmpty_]
    rfl

theorem checkEmpty_empty_tree (f : FolderHandle)
    (hf : f.hasFile = false) (hsub : f.subs ≠ [])
    (hall : ∀ s ∈ f.subs, s.hasFile = false ∧ s.subs = []) :
    checkFolderEmpty_ f 0 = .empty_tree := by
  cases f with
  | mk id name url ms df hasFile subs =>
    simp [FolderHandle.hasFile] at hf
    simp [FolderHandle.subs] at hsub
    subst hf
    rw [checkFolderEmpty_]
    have hfiles : anySubtreeHasFiles subs (0 + 1) = false :=
      anySubtreeHasFiles_leaves_false subs hall (0 + 1)
    have hne : subs.isEmpty = false := by
      cases hie : subs.isEmpty
      · rfl
      · exact absurd (List.isEmpty_iff.mp hie) hsub
    rw [hne, hfiles]
    rfl

theorem checkEmpty_never_empty_unless_leaf (f : FolderHandle) (d : Nat)
    (h : checkFolderEmpty_ f d = .empty) :
    f.hasFile = false ∧ f.subs = [] := by
  cases f with
  | mk id name url ms df hasFile subs =>
    rw [checkFolderEmpty_] at h
    by_cases h1 : hasFile = true
    · rw [if_pos h1] at h
      cases h
    · rw [if_neg h1] at h
      rw [Bool.not_eq_true] at h1
      by_cases h2 : subs.isEmpty
      · constructor
        · simpa [FolderHandle.hasFile] using h1
        · simpa [FolderHandle.subs] using List.isEmpty_iff.mp h2
      · rw [if_neg h2] at h
        by_cases h3 : 5 ≤ d
        · rw [if_pos h3] at h
          cases h
        · rw [if_neg h3] at h
          by_cases h4 : anySubtreeHasFiles subs (d + 1) = true
          · rw [if_pos h4] at h
            cases h
          · rw [if_neg h4] at h
            cases h

theorem checkEmpty_at_bound (f : FolderHandle)
    (hf : f.hasFile = false) (hsub : f.subs ≠ []) :
    checkFolderEmpty_ f 5 = .has_subfolders := by
  cases f with
  | mk id name url ms df hasFile subs =>
    simp [FolderHandle.hasFile] at hf
    simp [FolderHandle.subs] at hsub
    subst hf
    rw [checkFolderEmpty_]
    have hne : subs.isEmpty = false := by
      cases hie : subs.isEmpty
      · rfl
      · exact absurd (List.isEmpty_iff.mp hie) hsub
    rw [hne]
    rfl

/-- C3: whenever the time budget is exhausted before `currentIndex` reaches
the end of `folderIds`, the invocation, before returning, flushes every
buffered row to the sink, persists the ScanState record with all five fields
(folderIds, currentIndex, totalFolders, processedCount, includeSubfolders),
and reports a paused status — never a failure result. -/
theorem timeout_pauses_and_persists (drive : Drive) (r : String) (m : Bool)
    (budget : Nat) (w : World) (s : ScanState)
    (hs : w.props.processState = some s)
    (hb : s.currentIndex + budget < s.folderIds.length) :
    processAllFolders_ drive r m budget w =
      ( { w with
            props := { w.props with
              processState := some ⟨s.folderIds, s.currentIndex + budget,
                s.totalFolders, s.processedCount + budget, s.includeSubfolders⟩ }
            sink := w.sink ++ entryRows drive s.includeSubfolders
              ((s.folderIds.drop s.currentIndex).take budget) },
        .paused (s.processedCount + budget) s.totalFolders ) :=
  processAllFolders_paused drive r m budget w s hs hb

theorem timeout_pauses_and_persists_instance :
    sABC.currentIndex + 2 < sABC.folderIds.length ∧
    (processAllFolders_ drive0 "rootId" false 2 wMid).snd = .paused 2 3 := by
  refine ⟨by decide, ?_⟩
  rw [timeout_pauses_and_persists drive0 "rootId" false 2 wMid sABC rfl (by decide)]
  rfl

/-- C4: when the scan reaches `currentIndex = folderIds.length`, the
invocation flushes the remaining buffered rows to the sink, deletes the
persisted ScanState record, and reports completion with `totalFolders`
processed. -/
theorem natural_completion_reports_done (drive : Drive) (r : String) (m : Bool)
    (budget : Nat) (w : World) (s : ScanState)
    (hs : w.props.processState = some s)
    (hb : s.folderIds.length ≤ s.currentIndex + budget) :
    processAllFolders_ drive r m budget w =
      ( { w with
            props := { processState := none, rootFolderId := none,
                       includeSubfolders := none }
            sink := w.sink ++ entryRows drive s.includeSubfolders
              (s.folderIds.drop s.currentIndex) },
        .complete s.totalFolders ) :=
  processAllFolders_completes drive r m budget w s hs hb

theorem natural_completion_reports_done_instance :
    sABC.folderIds.length ≤ sABC.currentIndex + 5 ∧
    (processAllFolders_ drive0 "rootId" false 5 wMid).snd = .complete 3 := by
  refine ⟨by decide, ?_⟩
  rw [natural_completion_reports_done drive0 "rootId" false 5 wMid sABC rfl (by decide)]
  rfl

/-- C5: the empty-subtree check classifies a folder with zero files and zero
subfolders as `empty`; a folder with zero files whose subfolders are all
themselves empty leaves as `empty_tree`; it answers `has_files` exactly when
some folder within the depth bound 5 contains a file; a nonempty folder
inspected at the depth bound is conservatively `has_subfolders`; and `empty`
is only ever returned for a true leaf, never at the bound. -/
theorem empty_subtree_classification :
    (∀ f : FolderHandle, f.hasFile = false → f.subs = [] →
      checkFolderEmpty_ f 0 = .empty) ∧
    (∀ f : FolderHandle, f.hasFile = false → f.subs ≠ [] →
      (∀ s ∈ f.subs, s.hasFile = false ∧ s.subs = []) →
      checkFolderEmpty_ f 0 = .empty_tree) ∧
    (∀ f : FolderHandle,
      checkFolderEmpty_ f 0 = .has_files ↔ hasFileWithinDepth 5 f = true) ∧
    (∀ f : FolderHandle, f.hasFile = false → f.subs ≠ [] →
      checkFolderEmpty_ f 5 = .has_subfolders) ∧
    (∀ (f : FolderHandle) (d : Nat), checkFolderEmpty_ f d = .empty →
      f.hasFile = false ∧ f.subs = []) :=
  ⟨checkEmpty_leaf,
   checkEmpty_empty_tree,
   fun f => checkEmpty_has_files_iff (sizeOf f) f le_rfl 0 (by omega),
   checkEmpty_at_bound,
   checkEmpty_never_empty_unless_leaf⟩

theorem empty_subtree_classification_instance :
    checkFolderEmpty_ leafA 0 = .empty ∧
    checkFolderEmpty_ parentT 0 = .empty_tree ∧
    checkFolderEmpty_ (deepT 5) 0 = .has_files ∧
    checkFolderEmpty_ parentT 5 = .has_subfolders := by
  refine ⟨?_, ?_, ?_, ?_⟩
  · exact empty_subtree_classification.1 leafA rfl rfl
  · exact empty_subtree_classification.2.1 parentT rfl (List.cons_ne_nil _ _)
      (fun s hs => by
        have hs2 : s = leafA := List.mem_singleton.mp hs
        subst hs2
        exact ⟨rfl, rfl⟩)
  · exact (empty_subtree_classification.2.2.1 (deepT 5)).mpr (by decide)
  · exact empty_subtree_classification.2.2.2.1 parentT rfl (List.cons_ne_nil _ _)

theorem scan_in_slices_equals_single_run_instance :
    drive0.resolveRoot "rootId" = some rootF ∧
    (runSlices drive0 [2, 2]
      (startListing_ drive0 false "rootId" 1 w0).fst).props.rootFolderId = none ∧
    (runSlices drive0 [2, 2] (startListing_ drive0 false "rootId" 1 w0).fst).sink =
      (startListing_ drive0 false "rootId"
        (rootF.subs.map FolderHandle.id).length w0).fst.sink :=
  ⟨rfl, rfl,
    (scan_in_slices_equals_single_run drive0 false "rootId" 1 [2, 2] w0 rootF
      rfl rfl).1⟩

theorem failing_entry_is_isolated_instance :
    driveB.getFolderById (sABC.folderIds.getD 1 "") = none ∧
    (processAllFolders_ driveB "rootId" false 5 wMid).fst.sink =
      wMid.sink ++ entryRows driveB sABC.includeSubfolders (sABC.folderIds.take 1)
        ++ [errorRow driveB sABC.includeSubfolders]
        ++ entryRows driveB sABC.includeSubfolders (sABC.folderIds.drop 2) :=
  ⟨rfl,
    (failing_entry_is_isolated driveB "rootId" false 5 wMid sABC 1 rfl rfl
      (by decide) (by decide) rfl).2.1⟩

theorem resume_ignores_arguments_instance :
    wMid.props.processState = some sABC ∧
    processAllFolders_ drive0 "X" true 2 wMid =
      processAllFolders_ drive0 "Y" false 2 wMid :=
  ⟨rfl, (resume_ignores_arguments drive0 "X" "Y" true false 2 wMid sABC rfl).1⟩

/-- C8 counterexample: starting a fresh scan whose root does not resolve
still overwrites the saved ROOT_FOLDER_ID and INCLUDE_SUBFOLDERS keys before
resolution is attempted, so the stored state after the failed call differs
from the stored state before it. -/
theorem root_failure_updates_saved_keys :
    wPrev.props.processState = none ∧
    driveNone.resolveRoot "badId" = none ∧
    ¬ ((startListing_ driveNone false "badId" 4 wPrev).fst.props = wPrev.props) := by
  refine ⟨rfl, rfl, ?_⟩
  decide

theorem root_failure_aborts_instance :
    driveNone.resolveRoot "badId" = none ∧
    (startListing_ driveNone false "badId" 4 wPrev).snd = .rootError ∧
    (startListing_ driveNone false "badId" 4 wPrev).fst.props.processState = none ∧
    (startListing_ driveNone false "badId" 4 wPrev).fst.sink = [] :=
  ⟨rfl, (root_failure_aborts driveNone false "badId" 4 wPrev rfl).1,
    (root_failure_aborts driveNone false "badId" 4 wPrev rfl).2.1,
    (root_failure_aborts driveNone false "badId" 4 wPrev rfl).2.2.1⟩

theorem remove_marked_trashes_only_marked_rows_instance :
    "idC" ∈ removeMarkedTrashed drive0 (headersFor false) gridC := by
  apply (remove_marked_trashes_only_marked_rows drive0 (headersFor false) gridC "idC").mpr
  refine ⟨rfl, 5, 3, rfl, rfl,
    ["", "C", "https://drive.google.com/drive/folders/idC?x=1", "d", " Delete "],
    List.mem_singleton.mpr rfl, Or.inr (Or.inl rfl), by decide, rfl, rfl⟩

theorem completion_clears_all_keys_instance :
    sABC.folderIds.length ≤ sABC.currentIndex + 5 ∧
    (processAllFolders_ drive0 "rootId" false 5 wMid).fst.props =
      { processState := none, rootFolderId := none, includeSubfolders := none } ∧
    resumeListing drive0 9 (processAllFolders_ drive0 "rootId" false 5 wMid).fst =
      ((processAllFolders_ drive0 "rootId" false 5 wMid).fst, .nothingToResume) ∧
    updateFolderList drive0 (processAllFolders_ drive0 "rootId" false 5 wMid).fst =
      ((processAllFolders_ drive0 "rootId" false 5 wMid).fst, .noFolderConfigured) := by
  have h := completion_clears_all_keys drive0 "rootId" false 5 wMid sABC rfl (by decide)
  exact ⟨by decide, h.1, h.2.1 drive0 9, h.2.2 drive0⟩

end DriveList
